import Mathlib

/-!
Verification of `scripts/ai-analysis/mvv_data_processor.py`.

The script loads a CSV of company Mission/Vision/Values (MVV) records into a
pandas DataFrame, cleans the text fields, computes a completeness flag, groups
the complete records by category, and serializes the result to JSON.

This file is a shallow embedding of that script.  Cells of the DataFrame are
modelled by `Cell` (a missing value `NaN`, a string, or a number); Python
floats are modelled by `PyNum` over the rationals; raised exceptions by
`Except PyError`.  Each Lean definition mirrors the corresponding Python
function of the source (names are kept where Lean allows it).
-/

/-- A pandas cell: `na` models a missing value (NaN), `str` a string cell and
`num` a numeric cell (Python floats modelled over the rationals). -/
inductive Cell where
  | na : Cell
  | str (s : String) : Cell
  | num (val : ℚ) : Cell
deriving DecidableEq

/-- A Python float value: a rational, NaN, or a signed infinity. -/
inductive PyNum where
  | q (val : ℚ) : PyNum
  | nan : PyNum
  | inf (neg : Bool) : PyNum
deriving DecidableEq

/-- The Python exceptions that the modelled code can raise. -/
inductive PyError where
  | valueError (msg : String) : PyError
  | keyError (key : String) : PyError
  | zeroDivisionError : PyError
deriving DecidableEq

/-- A row of the DataFrame as seen by `iterrows`: an association list from
column name to cell value (a pandas `Series`). -/
def RawRow : Type := List (String × Cell)

/-- Look a column up in a row. -/
def lookupCol (r : RawRow) (col : String) : Option Cell :=
  (List.find? (fun p => p.1 == col) r).map Prod.snd

/-- Model of `row.get(col, default)` on a pandas Series: the cell when the
label exists, the supplied default otherwise. -/
def rowGet (r : RawRow) (col : String) (dflt : Cell) : Cell :=
  (lookupCol r col).getD dflt

/-- Model of `pd.isna` on a cell. -/
def Cell.isna : Cell → Bool
  | Cell.na => true
  | _ => false

/-- A single-quote character, used when rendering Python error messages. -/
def singleQuote : String := String.mk [Char.ofNat 39]

/-- Digits of the fractional part of a nonnegative rational below 1, with
explicit fuel (17 digits, the precision Python float repr never exceeds).
The steps `x * 10`, `floor` and the remainder are written with `Rat.divInt`
over integer arithmetic so that they stay kernel-computable. -/
def fracDigitsAux : Nat → ℚ → List Char
  | 0, _ => []
  | fuel + 1, x =>
    if x = 0 then []
    else
      let y := Rat.divInt (x.num * 10) (x.den : Int)
      let d := y.floor
      Char.ofNat (48 + d.toNat % 10) :: fracDigitsAux fuel (Rat.divInt (y.num - d * (y.den : Int)) (y.den : Int))

/-- Decimal rendering of a nonnegative rational, modelling `str` on a
nonnegative Python float (Python always prints a fractional part). -/
def ratReprNonneg (x : ℚ) : String :=
  let ip := x.floor.toNat
  let frac := fracDigitsAux 17 (Rat.divInt (x.num - x.floor * (x.den : Int)) (x.den : Int))
  toString ip ++ "." ++ (if frac.isEmpty then "0" else String.mk frac)

/-- Decimal rendering of a rational, modelling `str` on a Python float. -/
def ratRepr (x : ℚ) : String :=
  if x < 0 then "-" ++ ratReprNonneg (Rat.divInt (-x.num) (x.den : Int)) else ratReprNonneg x

/-- Model of Python `str` applied to a cell value. -/
def pyStrOfCell : Cell → String
  | Cell.na => "nan"
  | Cell.str s => s
  | Cell.num q => ratRepr q

/-- Python whitespace predicate used by `str.strip()` (and by `float` when
skipping surrounding space): the Unicode whitespace set of `str.isspace` —
tab through carriage return, the separator controls 28–31, space, NEL,
no-break space, Ogham space mark, the en-quad–hair-space run, line and
paragraph separators, narrow no-break space, mathematical space and
ideographic space. -/
def pyIsSpace (c : Char) : Bool :=
  let n := c.toNat
  (9 ≤ n && n ≤ 13) || (28 ≤ n && n ≤ 31) || n == 32 || n == 133 || n == 160 ||
  n == 0x1680 || (0x2000 ≤ n && n ≤ 0x200a) || n == 0x2028 || n == 0x2029 ||
  n == 0x202f || n == 0x205f || n == 0x3000

/-- Strip leading and trailing whitespace from a character list: drop the
whitespace head, then drop the whitespace head of the reversal (the original
tail) and reverse back. -/
def stripChars (l : List Char) : List Char :=
  ((l.dropWhile pyIsSpace).reverse.dropWhile pyIsSpace).reverse

/-- Model of Python `str.strip()`. -/
def pyStrip (s : String) : String := String.mk (stripChars s.data)

/-- Model of Python `str.replace(a, b)` for single characters. -/
def replaceChar (a b : Char) (s : String) : String :=
  String.mk (s.data.map (fun c => if c = a then b else c))

/-- Model of Python `c in s` for a single character `c`. -/
def containsChar (s : String) (c : Char) : Bool := decide (c ∈ s.data)

/-- Model of `MVVDataProcessor._clean_text`: NaN and the empty string clean to
the empty string; otherwise coerce to string, strip surrounding whitespace and
replace every semicolon by a full-width comma. -/
def _clean_text (text : Cell) : String :=
  if text.isna || (text == Cell.str "") then ""
  else if containsChar (pyStrip (pyStrOfCell text)) ';' then
    replaceChar ';' '、' (pyStrip (pyStrOfCell text))
  else pyStrip (pyStrOfCell text)

/-- Model of `MVVDataProcessor._create_combined_mvv`: collect the non-empty
fields with their labels in order and join them with a pipe separator. -/
def _create_combined_mvv (mission vision values : String) : String :=
  let parts : List String := []
  let parts := if mission ≠ "" then parts ++ ["Mission: " ++ mission] else parts
  let parts := if vision ≠ "" then parts ++ ["Vision: " ++ vision] else parts
  let parts := if values ≠ "" then parts ++ ["Values: " ++ values] else parts
  String.intercalate " | " parts

/-- Numeric value of a decimal digit character. -/
def digitVal (c : Char) : Nat := c.toNat - 48

/-- Value of a list of decimal digit characters. -/
def digitsToNat (l : List Char) : Nat :=
  l.foldl (fun n c => 10 * n + digitVal c) 0

/-- Split an optional leading sign off a character list; `true` means the
value is negated. -/
def splitSign : List Char → Bool × List Char
  | '+' :: rest => (false, rest)
  | '-' :: rest => (true, rest)
  | l => (false, l)

/-- Break a character list at the first exponent marker `e`. -/
def breakAtE : List Char → List Char × Option (List Char)
  | [] => ([], none)
  | 'e' :: rest => ([], some rest)
  | c :: rest =>
    let r := breakAtE rest
    (c :: r.1, r.2)

/-- Negate a rational when the flag is set, via `Rat.divInt` so that it stays
kernel-computable. -/
def ratNegIf (neg : Bool) (x : ℚ) : ℚ :=
  if neg then Rat.divInt (-x.num) (x.den : Int) else x

/-- Parse the mantissa of a Python float literal: digits with an optional
decimal point, at least one digit overall.  The value
`ipart + frac / 10 ^ len(frac)` is written as a single `Rat.divInt` over
natural-number arithmetic so that it stays kernel-computable. -/
def parseMantissa (l : List Char) : Option ℚ :=
  let ipart := l.takeWhile Char.isDigit
  let rest := l.dropWhile Char.isDigit
  match rest with
  | [] => if ipart.isEmpty then none else some (Rat.divInt (Int.ofNat (digitsToNat ipart)) 1)
  | '.' :: frac =>
    if frac.all Char.isDigit && !(ipart.isEmpty && frac.isEmpty) then
      some (Rat.divInt
        (Int.ofNat (digitsToNat ipart * 10 ^ frac.length + digitsToNat frac))
        (Int.ofNat (10 ^ frac.length)))
    else none
  | _ => none

/-- First codepoint (the zero digit) of each run of ten decimal digits in
Unicode's `Nd` category, ASCII first: the table behind CPython's
decimal-to-ASCII transform that lets `float` accept non-ASCII digits. -/
def ndZeroCodepoints : List Nat :=
  [0x0030, 0x0660, 0x06F0, 0x07C0, 0x0966, 0x09E6, 0x0A66, 0x0AE6, 0x0B66, 0x0BE6,
   0x0C66, 0x0CE6, 0x0D66, 0x0DE6, 0x0E50, 0x0ED0, 0x0F20, 0x1040, 0x1090, 0x17E0,
   0x1810, 0x1946, 0x19D0, 0x1A80, 0x1A90, 0x1B50, 0x1BB0, 0x1C40, 0x1C50, 0xA620,
   0xA8D0, 0xA900, 0xA9D0, 0xA9F0, 0xAA50, 0xABF0, 0xFF10, 0x104A0, 0x10D30, 0x11066,
   0x110F0, 0x11136, 0x111D0, 0x112F0, 0x11450, 0x114D0, 0x11650, 0x116C0, 0x11730,
   0x118E0, 0x11950, 0x11C50, 0x11D50, 0x11DA0, 0x11F50, 0x16A60, 0x16AC0, 0x16B50,
   0x1D7CE, 0x1D7D8, 0x1D7E2, 0x1D7EC, 0x1D7F6, 0x1E140, 0x1E2F0, 0x1E4F0, 0x1E950,
   0x1FBF0]

/-- The decimal value of a Unicode decimal digit, if the character is one. -/
def unicodeDigitVal (c : Char) : Option Nat :=
  (ndZeroCodepoints.find? (fun z => z ≤ c.toNat && c.toNat < z + 10)).map
    (fun z => c.toNat - z)

/-- CPython's decimal transform on one character: a Unicode decimal digit
becomes its ASCII digit, everything else is kept. -/
def toAsciiDigitOrSelf (c : Char) : Char :=
  match unicodeDigitVal c with
  | some d => Char.ofNat (48 + d)
  | none => c

/-- Scan for PEP 515 underscore validity given the previous character: each
underscore must be directly preceded and followed by an ASCII digit. -/
def underscoresValidGo : Char → List Char → Bool
  | prev, '_' :: rest =>
    prev.isDigit &&
    (match rest with
      | c2 :: _ => c2.isDigit
      | [] => false) &&
    underscoresValidGo '_' rest
  | _, c :: rest => underscoresValidGo c rest
  | _, [] => true

/-- PEP 515 underscore validity of a numeric string: underscores may only
stand between two digits. -/
def underscoresValid : List Char → Bool
  | [] => true
  | c :: rest => if c = '_' then false else underscoresValidGo c rest

/-- The sign, special-value and mantissa-exponent phase of `float(s)`, after
the transform, strip, lowercase and underscore phases. -/
def pyFloatOfChars (t : List Char) : Option PyNum :=
  let signBody := splitSign t
  let neg := signBody.1
  let body := signBody.2
  if body = "inf".data ∨ body = "infinity".data then some (PyNum.inf neg)
  else if body = "nan".data then some PyNum.nan
  else
    let broken := breakAtE body
    match parseMantissa broken.1, broken.2 with
    | some m, none => some (PyNum.q (ratNegIf neg m))
    | some m, some ex =>
      let se := splitSign ex
      if se.2.isEmpty then none
      else if se.2.all Char.isDigit then
        let e := digitsToNat se.2
        let v :=
          if se.1 then Rat.divInt m.num ((m.den : Int) * Int.ofNat (10 ^ e))
          else Rat.divInt (m.num * Int.ofNat (10 ^ e)) (m.den : Int)
        some (PyNum.q (ratNegIf neg v))
      else none
    | none, _ => none

/-- Model of Python `float(s)` on a string: transform Unicode decimal digits
to ASCII (CPython's decimal transform), strip whitespace, lowercase, validate
and drop PEP 515 underscores, then accept an optional sign,
`inf`/`infinity`/`nan`, or a decimal mantissa with an optional exponent;
everything else is unparseable. -/
def pyFloatOfString (s : String) : Option PyNum :=
  let t0 := s.data.map toAsciiDigitOrSelf
  let t := (stripChars t0).map Char.toLower
  if underscoresValid t then pyFloatOfChars (t.filter (fun c => c != '_')) else none

/-- Python `ValueError` message raised by `float` on an unparseable string. -/
def floatErrMsg (s : String) : String :=
  "could not convert string to float: " ++ singleQuote ++ s ++ singleQuote

/-- Model of Python `float(...)` on a cell: NaN stays NaN, numbers pass
through, strings are parsed and raise `ValueError` when unparseable. -/
def pyFloat : Cell → Except PyError PyNum
  | Cell.na => Except.ok PyNum.nan
  | Cell.num q => Except.ok (PyNum.q q)
  | Cell.str s =>
    match pyFloatOfString s with
    | some v => Except.ok v
    | none => Except.error (PyError.valueError (floatErrMsg s))

/-- The fixed-key confidence-score mapping of a processed company. -/
structure ConfidenceScores where
  mission : PyNum
  vision : PyNum
  values : PyNum
deriving DecidableEq

/-- A processed company, mirroring the `company_data` dict built by
`preprocess_mvv_data` (field order follows the dict literal). -/
structure Company where
  id : String
  name : Cell
  website : Cell
  category : Cell
  mission : String
  vision : String
  values : String
  combined_mvv : String
  confidence_scores : ConfidenceScores
  extraction_source : Cell
  extracted_from : Cell
  has_complete_mvv : Bool
deriving DecidableEq

/-- The body of the `preprocess_mvv_data` loop for one row at index `idx`:
clean the three text fields, build the combined text, parse the three
confidence values (the only operations of the body that can raise), and
assemble the company record. -/
def processRow (idx : Nat) (row : RawRow) : Except PyError Company :=
  let mission := _clean_text (rowGet row "mission" (Cell.str ""))
  let vision := _clean_text (rowGet row "vision" (Cell.str ""))
  let values := _clean_text (rowGet row "values" (Cell.str ""))
  let combined_mvv := _create_combined_mvv mission vision values
  match pyFloat (rowGet row "missionConfidence" (Cell.num 0)) with
  | Except.error e => Except.error e
  | Except.ok mc =>
    match pyFloat (rowGet row "visionConfidence" (Cell.num 0)) with
    | Except.error e => Except.error e
    | Except.ok vc =>
      match pyFloat (rowGet row "valuesConfidence" (Cell.num 0)) with
      | Except.error e => Except.error e
      | Except.ok wc =>
        Except.ok
          { id := "company_" ++ toString (idx + 1)
            name := rowGet row "companyName" (Cell.str "")
            website := rowGet row "website" (Cell.str "")
            category := rowGet row "category" (Cell.str "")
            mission := mission
            vision := vision
            values := values
            combined_mvv := combined_mvv
            confidence_scores := ⟨mc, vc, wc⟩
            extraction_source := rowGet row "extractionSource" (Cell.str "")
            extracted_from := rowGet row "extractedFrom" (Cell.str "")
            has_complete_mvv :=
              decide (mission ≠ "") && decide (vision ≠ "") && decide (values ≠ "") }

/-- The `preprocess_mvv_data` loop from row index `idx` on: a row whose body
raises is logged and skipped (`continue`), a successful row appends its
company in order. -/
def preprocessGo : Nat → List RawRow → List Company
  | _, [] => []
  | idx, r :: rest =>
    match processRow idx r with
    | Except.ok c => c :: preprocessGo (idx + 1) rest
    | Except.error _ => preprocessGo (idx + 1) rest

/-- Model of `MVVDataProcessor.preprocess_mvv_data` on the loaded rows. -/
def preprocess_mvv_data (rows : List RawRow) : List Company :=
  preprocessGo 0 rows

deriving instance DecidableEq for Except

/-- One step of the `by_category` grouping dict of `get_analysis_ready_data`:
append the company to the list of its (first-matching) key, or add a new key
at the end when the key is absent — Python dicts preserve insertion order. -/
def addToGroup : List (Cell × List Company) → Cell → Company → List (Cell × List Company)
  | [], k, c => [(k, [c])]
  | p :: rest, k, c =>
    if p.1 = k then (p.1, p.2 ++ [c]) :: rest
    else p :: addToGroup rest k c

/-- The body of the grouping loop of `get_analysis_ready_data`. -/
def groupStep (acc : List (Cell × List Company)) (c : Company) : List (Cell × List Company) :=
  addToGroup acc c.category c

/-- The `by_category` grouping loop of `get_analysis_ready_data`. -/
def groupByCategory (l : List Company) : List (Cell × List Company) :=
  l.foldl groupStep []

/-- The analysis bundle dict returned by `get_analysis_ready_data` (field
order follows the dict literal; `by_category` is an insertion-ordered
association list modelling the Python dict). -/
structure Bundle where
  total_companies : Nat
  complete_mvv_companies : Nat
  companies : List Company
  by_category : List (Cell × List Company)
  categories : List Cell
  processed_at : String
deriving DecidableEq

/-- Construction of the analysis bundle from the processed data and the
current timestamp: filter to complete companies, group them by category. -/
def mkBundle (pd : List Company) (now : String) : Bundle :=
  let complete_mvv_companies := pd.filter (fun c => c.has_complete_mvv)
  let by_category := groupByCategory complete_mvv_companies
  { total_companies := pd.length
    complete_mvv_companies := complete_mvv_companies.length
    companies := complete_mvv_companies
    by_category := by_category
    categories := by_category.map Prod.fst
    processed_at := now }

/-- Message of the `ValueError` raised by `get_analysis_ready_data` when no
data has been preprocessed. -/
def notPreprocessedMsg : String :=
  "データが前処理されていません。preprocess_mvv_data()を先に実行してください。"

/-- Model of `MVVDataProcessor.get_analysis_ready_data`.  The argument is the
`self.processed_data` field: `none` before `preprocess_mvv_data` ran, `some`
of its result afterwards; `if not self.processed_data` is true for both
`None` and the empty list. -/
def get_analysis_ready_data (processed_data : Option (List Company)) (now : String) :
    Except PyError Bundle :=
  match processed_data with
  | none => Except.error (PyError.valueError notPreprocessedMsg)
  | some pd =>
    if pd.isEmpty then Except.error (PyError.valueError notPreprocessedMsg)
    else Except.ok (mkBundle pd now)

/-- The loaded DataFrame: a column list and a rectangular table of cells
(`pd.read_csv` result).  Missing CSV cells are `Cell.na` entries. -/
structure Frame where
  columns : List String
  table : List (List Cell)

/-- The rows of the frame as association lists, as `iterrows` yields them. -/
def Frame.rows (f : Frame) : List RawRow :=
  f.table.map (fun cells => f.columns.zip cells)

/-- Model of `df[col]` on the frame: the column's cells, or a `KeyError` when
the column is absent. -/
def frameCol (f : Frame) (col : String) : Except PyError (List Cell) :=
  if col ∈ f.columns then
    Except.ok (f.rows.map (fun r => rowGet r col Cell.na))
  else Except.error (PyError.keyError col)

/-- The numbers computed by `_print_basic_stats` (its output is print-only;
the data accesses and arithmetic are modelled because they can raise). -/
structure BasicStats where
  total : Nat
  completed : Nat
  num_categories : Nat
  mission_filled : Nat
  vision_filled : Nat
  values_filled : Nat
deriving DecidableEq

/-- The `notna` and `!= ''` filter used for the fill-rate counts. -/
def notnaAndNonempty (c : Cell) : Bool :=
  !c.isna && !(c == Cell.str "")

/-- Model of `MVVDataProcessor._print_basic_stats`: accesses the `status`,
`category`, `mission`, `vision` and `values` columns in source order (each
raising `KeyError` when absent), then divides by the row count for the
fill-rate percentages (raising `ZeroDivisionError` on an empty frame). -/
def _print_basic_stats (f : Frame) : Except PyError BasicStats :=
  match frameCol f "status" with
  | Except.error e => Except.error e
  | Except.ok status =>
  match frameCol f "category" with
  | Except.error e => Except.error e
  | Except.ok cats =>
  match frameCol f "mission" with
  | Except.error e => Except.error e
  | Except.ok mission =>
  match frameCol f "vision" with
  | Except.error e => Except.error e
  | Except.ok vision =>
  match frameCol f "values" with
  | Except.error e => Except.error e
  | Except.ok values =>
  if f.table.length = 0 then Except.error PyError.zeroDivisionError
  else Except.ok
    { total := f.table.length
      completed := (status.filter (fun c => c == Cell.str "completed")).length
      num_categories := ((cats.filter (fun c => !c.isna)).dedup).length
      mission_filled := (mission.filter notnaAndNonempty).length
      vision_filled := (vision.filter notnaAndNonempty).length
      values_filled := (values.filter notnaAndNonempty).length }

/-- Model of `MVVDataProcessor.load_data` after the CSV has been parsed into
a frame: the basic-stats step runs and any of its errors propagates (the
`except` clause prints and re-raises). -/
def load_data (f : Frame) : Except PyError Frame :=
  match _print_basic_stats f with
  | Except.error e => Except.error e
  | Except.ok _ => Except.ok f

/-- The data pipeline of `main`: `load_data`, then `preprocess_mvv_data`,
then `get_analysis_ready_data` (the aggregation step inside
`save_processed_data`), with the timestamp passed explicitly. -/
def runPipeline (f : Frame) (now : String) : Except PyError Bundle :=
  match load_data f with
  | Except.error e => Except.error e
  | Except.ok f2 => get_analysis_ready_data (some (preprocess_mvv_data f2.rows)) now

/-- Hexadecimal digit character (lowercase), for JSON control escapes. -/
def hexDigitChar (n : Nat) : Char :=
  if n < 10 then Char.ofNat (48 + n) else Char.ofNat (87 + n)

/-- JSON escaping of one character, as `json.dump` with `ensure_ascii=False`
performs it: quote, backslash and control characters are escaped, everything
else (including non-ASCII) is kept verbatim. -/
def jsonEscapeChar (c : Char) : String :=
  if c = '"' then "\\\""
  else if c = '\\' then "\\\\"
  else if c = '\n' then "\\n"
  else if c = '\t' then "\\t"
  else if c = '\r' then "\\r"
  else if c.toNat < 32 then
    "\\u00" ++ String.mk [hexDigitChar (c.toNat / 16), hexDigitChar (c.toNat % 16)]
  else String.mk [c]

/-- JSON rendering of a string. -/
def jsonOfString (s : String) : String :=
  "\"" ++ String.join (s.data.map jsonEscapeChar) ++ "\""

/-- JSON rendering of a Python float (`json.dump` writes `NaN` and
`Infinity` literals by default). -/
def jsonOfNum : PyNum → String
  | PyNum.q x => ratRepr x
  | PyNum.nan => "NaN"
  | PyNum.inf neg => if neg then "-Infinity" else "Infinity"

/-- JSON rendering of a raw cell value carried into the output dict. -/
def jsonOfCell : Cell → String
  | Cell.na => "NaN"
  | Cell.str s => jsonOfString s
  | Cell.num q => ratRepr q

/-- JSON rendering of a boolean. -/
def jsonOfBool : Bool → String
  | true => "true"
  | false => "false"

/-- JSON rendering of an array from already-rendered elements. -/
def jsonArray (elems : List String) : String :=
  "[" ++ String.intercalate ", " elems ++ "]"

/-- JSON object key for a `by_category` dict key (`json.dump` coerces
non-string keys to strings). -/
def jsonKeyOfCell : Cell → String
  | Cell.na => "\"NaN\""
  | Cell.str s => jsonOfString s
  | Cell.num q => jsonOfString (ratRepr q)

/-- JSON rendering of one processed company, keys in the dict-literal order
of `preprocess_mvv_data`. -/
def serializeCompany (c : Company) : String :=
  "\x7b\"id\": " ++ jsonOfString c.id ++
  ", \"name\": " ++ jsonOfCell c.name ++
  ", \"website\": " ++ jsonOfCell c.website ++
  ", \"category\": " ++ jsonOfCell c.category ++
  ", \"mission\": " ++ jsonOfString c.mission ++
  ", \"vision\": " ++ jsonOfString c.vision ++
  ", \"values\": " ++ jsonOfString c.values ++
  ", \"combined_mvv\": " ++ jsonOfString c.combined_mvv ++
  ", \"confidence_scores\": \x7b\"mission\": " ++ jsonOfNum c.confidence_scores.mission ++
  ", \"vision\": " ++ jsonOfNum c.confidence_scores.vision ++
  ", \"values\": " ++ jsonOfNum c.confidence_scores.values ++ "\x7d" ++
  ", \"extraction_source\": " ++ jsonOfCell c.extraction_source ++
  ", \"extracted_from\": " ++ jsonOfCell c.extracted_from ++
  ", \"has_complete_mvv\": " ++ jsonOfBool c.has_complete_mvv ++ "\x7d"

/-- JSON rendering of the analysis bundle up to and including the
`"processed_at": ` key — everything of the serialized output that precedes
the timestamp value.  Key order follows the `analysis_data` dict literal;
the multi-line `indent=2` whitespace of `json.dump` is abstracted to
single-line separators (a fixed formatting function of the same data). -/
def serializeBundleHead (b : Bundle) : String :=
  "\x7b\"total_companies\": " ++ toString b.total_companies ++
  ", \"complete_mvv_companies\": " ++ toString b.complete_mvv_companies ++
  ", \"companies\": " ++ jsonArray (b.companies.map serializeCompany) ++
  ", \"by_category\": \x7b" ++
    String.intercalate ", "
      (b.by_category.map (fun p => jsonKeyOfCell p.1 ++ ": " ++ jsonArray (p.2.map serializeCompany))) ++
  "\x7d" ++
  ", \"categories\": " ++ jsonArray (b.categories.map jsonKeyOfCell) ++
  ", \"processed_at\": "

/-- JSON rendering of the analysis bundle; the timestamp value is the last
item, as in the `analysis_data` dict. -/
def serializeBundle (b : Bundle) : String :=
  serializeBundleHead b ++ jsonOfString b.processed_at ++ "\x7d"

/-- Model of `MVVDataProcessor.save_processed_data` composed with the steps
`main` runs before it: the serialized JSON text on success, the raised error
otherwise. -/
def save_processed_data (f : Frame) (now : String) : Except PyError String :=
  match runPipeline f now with
  | Except.error e => Except.error e
  | Except.ok b => Except.ok (serializeBundle b)

/-! ### Lemmas about whitespace stripping and character substitution -/

theorem dropWhile_head?_false {α : Type} (p : α → Bool) (l : List α) (a : α)
    (h : (l.dropWhile p).head? = some a) : p a = false := by
  induction l with
  | nil => simp at h
  | cons c t ih =>
    rw [List.dropWhile_cons] at h
    by_cases hc : p c = true
    · rw [if_pos hc] at h
      exact ih h
    · rw [if_neg hc] at h
      simp only [List.head?_cons, Option.some.injEq] at h
      simp only [Bool.not_eq_true] at hc
      exact h ▸ hc

theorem dropWhile_eq_self_of {α : Type} (p : α → Bool) (l : List α)
    (h : ∀ a, l.head? = some a → p a = false) : l.dropWhile p = l := by
  cases l with
  | nil => rfl
  | cons c t =>
    rw [List.dropWhile_cons, if_neg]
    simp [h c rfl]

theorem dropWhile_dropWhile {α : Type} (p : α → Bool) (l : List α) :
    (l.dropWhile p).dropWhile p = l.dropWhile p :=
  dropWhile_eq_self_of p _ (fun a ha => dropWhile_head?_false p l a ha)

theorem getLast?_dropWhile {α : Type} (p : α → Bool) (l : List α)
    (h : l.dropWhile p ≠ []) : (l.dropWhile p).getLast? = l.getLast? := by
  conv_rhs => rw [← List.takeWhile_append_dropWhile (p := p) (l := l)]
  rw [List.getLast?_append]
  cases hl : (l.dropWhile p).getLast? with
  | none => exact absurd (List.getLast?_eq_none_iff.mp hl) h
  | some a => rfl

theorem stripChars_head?_false (l : List Char) (a : Char)
    (h : (stripChars l).head? = some a) : pyIsSpace a = false := by
  unfold stripChars at h
  rw [List.head?_reverse] at h
  have hne : (l.dropWhile pyIsSpace).reverse.dropWhile pyIsSpace ≠ [] := by
    intro h0
    rw [h0] at h
    simp at h
  rw [getLast?_dropWhile _ _ hne, List.getLast?_reverse] at h
  exact dropWhile_head?_false _ _ _ h

theorem stripChars_getLast?_false (l : List Char) (a : Char)
    (h : (stripChars l).getLast? = some a) : pyIsSpace a = false := by
  unfold stripChars at h
  rw [List.getLast?_reverse] at h
  exact dropWhile_head?_false _ _ _ h

theorem stripChars_eq_self (l : List Char)
    (h1 : ∀ a, l.head? = some a → pyIsSpace a = false)
    (h2 : ∀ a, l.getLast? = some a → pyIsSpace a = false) : stripChars l = l := by
  unfold stripChars
  rw [dropWhile_eq_self_of _ _ h1]
  rw [dropWhile_eq_self_of _ _ (fun a ha => h2 a (by rwa [List.head?_reverse] at ha))]
  exact List.reverse_reverse l

theorem stripChars_idem (l : List Char) : stripChars (stripChars l) = stripChars l :=
  stripChars_eq_self _ (stripChars_head?_false l) (stripChars_getLast?_false l)

theorem pyStrip_data (s : String) : (pyStrip s).data = stripChars s.data := rfl

theorem pyStrip_pyStrip (s : String) : pyStrip (pyStrip s) = pyStrip s :=
  congrArg String.mk (stripChars_idem s.data)

theorem map_eq_self_of {α : Type} (f : α → α) (l : List α)
    (h : ∀ a ∈ l, f a = a) : l.map f = l := by
  induction l with
  | nil => rfl
  | cons c t ih =>
    rw [List.map_cons, h c (List.mem_cons_self c t), ih (fun a ha => h a (List.mem_cons_of_mem c ha))]

/-- The character substitution performed by `replace`. -/
theorem semiSubst_not_space (b : Char) (hb : pyIsSpace b = false) :
    pyIsSpace (if b = ';' then '、' else b) = false := by
  by_cases h : b = ';'
  · rw [if_pos h]
    decide
  · rwa [if_neg h]

theorem replaceChar_no_semi (s : String) :
    containsChar (replaceChar ';' '、' s) ';' = false := by
  unfold containsChar replaceChar
  rw [decide_eq_false_iff_not]
  intro hmem
  rcases List.mem_map.mp hmem with ⟨a, _, hfa⟩
  by_cases h : a = ';'
  · rw [if_pos h] at hfa
    exact absurd hfa (by decide)
  · rw [if_neg h] at hfa
    exact h hfa

theorem pyStrip_replaceChar_pyStrip (s : String) :
    pyStrip (replaceChar ';' '、' (pyStrip s)) = replaceChar ';' '、' (pyStrip s) := by
  apply congrArg String.mk
  show stripChars ((stripChars s.data).map _) = (stripChars s.data).map _
  apply stripChars_eq_self
  · intro a ha
    rw [List.head?_map] at ha
    cases hh : (stripChars s.data).head? with
    | none => rw [hh] at ha; exact absurd ha (by simp)
    | some b =>
      rw [hh] at ha
      simp only [Option.map_some', Option.some.injEq] at ha
      exact ha ▸ semiSubst_not_space b (stripChars_head?_false _ _ hh)
  · intro a ha
    rw [List.getLast?_map] at ha
    cases hh : (stripChars s.data).getLast? with
    | none => rw [hh] at ha; exact absurd ha (by simp)
    | some b =>
      rw [hh] at ha
      simp only [Option.map_some', Option.some.injEq] at ha
      exact ha ▸ semiSubst_not_space b (stripChars_getLast?_false _ _ hh)

/-- Every `_clean_text` output is stripped and semicolon-free. -/
theorem clean_text_stripped_no_semi (c : Cell) :
    pyStrip (_clean_text c) = _clean_text c ∧ containsChar (_clean_text c) ';' = false := by
  unfold _clean_text
  by_cases h0 : (c.isna || (c == Cell.str "")) = true
  · rw [if_pos h0]
    exact ⟨rfl, rfl⟩
  · rw [if_neg h0]
    by_cases h1 : containsChar (pyStrip (pyStrOfCell c)) ';' = true
    · rw [if_pos h1]
      exact ⟨pyStrip_replaceChar_pyStrip _, replaceChar_no_semi _⟩
    · rw [if_neg h1]
      refine ⟨congrArg String.mk (stripChars_idem _), ?_⟩
      simpa using h1

/-- Cleaning a string that is already stripped and semicolon-free returns it
unchanged. -/
theorem clean_text_of_clean (s : String) (hs : pyStrip s = s)
    (hn : containsChar s ';' = false) : _clean_text (Cell.str s) = s := by
  by_cases he : s = ""
  · subst he
    decide
  · have hc0 : ((Cell.str s).isna || (Cell.str s == Cell.str "")) = false :=
      Bool.or_eq_false_iff.mpr ⟨rfl, beq_eq_false_iff_ne.mpr (fun h => he (Cell.str.inj h))⟩
    unfold _clean_text
    rw [hc0, if_neg Bool.false_ne_true]
    show (if containsChar (pyStrip s) ';' = true then
        replaceChar ';' '、' (pyStrip s)
      else pyStrip s) = s
    rw [hs, hn, if_neg Bool.false_ne_true]

theorem clean_text_idem (c : Cell) :
    _clean_text (Cell.str (_clean_text c)) = _clean_text c :=
  clean_text_of_clean _ (clean_text_stripped_no_semi c).1 (clean_text_stripped_no_semi c).2

/-- Cleaning a string substitutes exactly the semicolons of the stripped text
by full-width commas, character for character. -/
theorem clean_text_data_map (s : String) :
    (_clean_text (Cell.str s)).data =
      (pyStrip s).data.map (fun ch => if ch = ';' then '、' else ch) := by
  by_cases he : s = ""
  · subst he
    decide
  · have hc0 : ((Cell.str s).isna || (Cell.str s == Cell.str "")) = false :=
      Bool.or_eq_false_iff.mpr ⟨rfl, beq_eq_false_iff_ne.mpr (fun h => he (Cell.str.inj h))⟩
    unfold _clean_text
    rw [hc0, if_neg Bool.false_ne_true]
    by_cases h1 : containsChar (pyStrip (pyStrOfCell (Cell.str s))) ';' = true
    · rw [if_pos h1]
      rfl
    · rw [if_neg h1]
      have hmem : (';' : Char) ∉ (pyStrip s).data := by
        simpa [containsChar] using h1
      refine (map_eq_self_of _ _ ?_).symm
      intro a ha
      rw [if_neg]
      intro h
      exact hmem (h ▸ ha)

/-! ### Claim C4 -/

/-- C4 counterexample: cleaning the values field `Integrity; Respect; Excellence`
does not yield `Integrity、Respect、Excellence` — the spaces after the
semicolons survive the substitution, so the result is
`Integrity、 Respect、 Excellence`. -/
theorem C4_counterexample :
    _clean_text (Cell.str "Integrity; Respect; Excellence") = "Integrity、 Respect、 Excellence" ∧
    _clean_text (Cell.str "Integrity; Respect; Excellence") ≠ "Integrity、Respect、Excellence" := by
  constructor
  · decide
  · decide

/-- C4 (amended): text cleaning substitutes every semicolon of the stripped
text with a full-width comma, character for character; in particular the
values field `Integrity; Respect; Excellence` cleans to
`Integrity、 Respect、 Excellence`, the separating spaces being preserved. -/
theorem C4_semicolon_substitution :
    (∀ s : String, (_clean_text (Cell.str s)).data =
      (pyStrip s).data.map (fun ch => if ch = ';' then '、' else ch)) ∧
    _clean_text (Cell.str "Integrity; Respect; Excellence") = "Integrity、 Respect、 Excellence" := by
  refine ⟨clean_text_data_map, ?_⟩
  decide

/-! ### Claim C10 -/

/-- C10: text cleaning is idempotent — every cleaned string is already
stripped of surrounding whitespace and free of semicolons, and cleaning a
cleaned string returns it unchanged. -/
theorem C10_clean_text_idempotent (c : Cell) :
    pyStrip (_clean_text c) = _clean_text c ∧
    containsChar (_clean_text c) ';' = false ∧
    _clean_text (Cell.str (_clean_text c)) = _clean_text c :=
  ⟨(clean_text_stripped_no_semi c).1, (clean_text_stripped_no_semi c).2, clean_text_idem c⟩

/-! ### Claim C6 -/

/-- C6: the combined text takes exactly the non-empty fields in the order
mission, vision, values, prefixes each with its literal label, and joins the
present segments with a pipe separator; the example with an empty mission
gives exactly `Vision: See far | Values: Honesty`. -/
theorem C6_combined_text :
    _create_combined_mvv "" "See far" "Honesty" = "Vision: See far | Values: Honesty" ∧
    (∀ mission vision values : String,
      _create_combined_mvv mission vision values =
        String.intercalate " | "
          ((if mission ≠ "" then ["Mission: " ++ mission] else []) ++
           (if vision ≠ "" then ["Vision: " ++ vision] else []) ++
           (if values ≠ "" then ["Values: " ++ values] else []))) := by
  constructor
  · decide
  · intro mission vision values
    unfold _create_combined_mvv
    split_ifs <;> rfl

/-! ### Claim C2 -/

/-- C2: for every raw record processed into a company, the three text fields
are the cleaned inputs and `has_complete_mvv` holds exactly when all three
cleaned fields are non-empty. -/
theorem C2_completeness_flag (idx : Nat) (row : RawRow) (c : Company)
    (h : processRow idx row = Except.ok c) :
    c.mission = _clean_text (rowGet row "mission" (Cell.str "")) ∧
    c.vision = _clean_text (rowGet row "vision" (Cell.str "")) ∧
    c.values = _clean_text (rowGet row "values" (Cell.str "")) ∧
    (c.has_complete_mvv = true ↔ (c.mission ≠ "" ∧ c.vision ≠ "" ∧ c.values ≠ "")) := by
  simp only [processRow] at h
  split at h
  · exact absurd h (by simp)
  · split at h
    · exact absurd h (by simp)
    · split at h
      · exact absurd h (by simp)
      · rw [Except.ok.injEq] at h
        subst h
        refine ⟨rfl, rfl, rfl, ?_⟩
        simp [Bool.and_eq_true, decide_eq_true_eq, and_assoc]

/-- A concrete row for the C2 witness. -/
def c2Row : RawRow :=
  [("mission", Cell.str " Lead "), ("vision", Cell.str "See"), ("values", Cell.str "")]

/-- The company `processRow` produces from `c2Row`. -/
def c2Company : Company :=
  { id := "company_1", name := Cell.str "", website := Cell.str "",
    category := Cell.str "", mission := "Lead", vision := "See", values := "",
    combined_mvv := "Mission: Lead | Vision: See",
    confidence_scores := ⟨PyNum.q 0, PyNum.q 0, PyNum.q 0⟩,
    extraction_source := Cell.str "", extracted_from := Cell.str "",
    has_complete_mvv := false }

/-- C2 witness at the concrete row `c2Row`. -/
theorem C2_witness :
    processRow 0 c2Row = Except.ok c2Company ∧
    (c2Company.mission = _clean_text (rowGet c2Row "mission" (Cell.str "")) ∧
     c2Company.vision = _clean_text (rowGet c2Row "vision" (Cell.str "")) ∧
     c2Company.values = _clean_text (rowGet c2Row "values" (Cell.str "")) ∧
     (c2Company.has_complete_mvv = true ↔
       (c2Company.mission ≠ "" ∧ c2Company.vision ≠ "" ∧ c2Company.values ≠ ""))) :=
  ⟨by decide, C2_completeness_flag 0 c2Row c2Company (by decide)⟩

/-! ### Claim C3 -/

/-- A record whose mission-confidence cell holds an unparseable string makes
the row body raise the `float` conversion `ValueError`. -/
theorem processRow_error_of_bad_mission_conf (idx : Nat) (r : RawRow) (s : String)
    (hget : rowGet r "missionConfidence" (Cell.num 0) = Cell.str s)
    (hbad : pyFloatOfString s = none) :
    processRow idx r = Except.error (PyError.valueError (floatErrMsg s)) := by
  unfold processRow
  rw [hget]
  simp [pyFloat, hbad]

/-- A concrete row with an unparseable mission-confidence value. -/
def c3BadRow : RawRow :=
  [("companyName", Cell.str "X"), ("category", Cell.str "tech"),
   ("mission", Cell.str "m"), ("vision", Cell.str "v"), ("values", Cell.str "w"),
   ("missionConfidence", Cell.str "abc")]

/-- C3 counterexample: a record whose confidence field holds the unparseable
string `abc` is not emitted at all — the row body raises, the record is
skipped, and the output of `preprocess_mvv_data` on that single record is
empty rather than a company with a `0.0` score. -/
theorem C3_counterexample :
    rowGet c3BadRow "missionConfidence" (Cell.num 0) = Cell.str "abc" ∧
    pyFloatOfString "abc" = none ∧
    preprocess_mvv_data [c3BadRow] = [] :=
  ⟨by decide, by decide, by decide⟩

/-- A record any of whose three confidence cells holds an unparseable string
makes the row body raise a `float` conversion `ValueError` (the first failing
field in evaluation order determines which error). -/
theorem processRow_error_of_bad_conf (idx : Nat) (r : RawRow) (s : String) (field : String)
    (hf : field = "missionConfidence" ∨ field = "visionConfidence" ∨
      field = "valuesConfidence")
    (hget : rowGet r field (Cell.num 0) = Cell.str s)
    (hbad : pyFloatOfString s = none) :
    ∃ e, processRow idx r = Except.error e := by
  rcases hf with hf | hf | hf
  · subst hf
    exact ⟨_, processRow_error_of_bad_mission_conf idx r s hget hbad⟩
  · subst hf
    cases h1 : pyFloat (rowGet r "missionConfidence" (Cell.num 0)) with
    | error e1 =>
      exact ⟨e1, by simp only [processRow, h1]⟩
    | ok mc =>
      refine ⟨PyError.valueError (floatErrMsg s), ?_⟩
      simp only [processRow, h1]
      rw [hget]
      simp [pyFloat, hbad]
  · subst hf
    cases h1 : pyFloat (rowGet r "missionConfidence" (Cell.num 0)) with
    | error e1 =>
      exact ⟨e1, by simp only [processRow, h1]⟩
    | ok mc =>
      cases h2 : pyFloat (rowGet r "visionConfidence" (Cell.num 0)) with
      | error e2 =>
        exact ⟨e2, by simp only [processRow, h1, h2]⟩
      | ok vc =>
        refine ⟨PyError.valueError (floatErrMsg s), ?_⟩
        simp only [processRow, h1, h2]
        rw [hget]
        simp [pyFloat, hbad]

/-- C3 (amended): a record any of whose three confidence fields
(`missionConfidence`, `visionConfidence`, `valuesConfidence`) holds an
unparseable value is skipped â its row is dropped and processing continues
with the remaining rows, so the overall run is not aborted; only a confidence
column that is absent altogether defaults the corresponding score to `0.0`
while still emitting the record. -/
theorem C3_confidence_amended :
    (∀ (idx : Nat) (rest : List RawRow) (r : RawRow) (s : String) (field : String),
        (field = "missionConfidence" ∨ field = "visionConfidence" ∨
          field = "valuesConfidence") →
        rowGet r field (Cell.num 0) = Cell.str s →
        pyFloatOfString s = none →
        preprocessGo idx (r :: rest) = preprocessGo (idx + 1) rest) ∧
    (∀ (idx : Nat) (r : RawRow) (c : Company),
        processRow idx r = Except.ok c →
        (lookupCol r "missionConfidence" = none →
          c.confidence_scores.mission = PyNum.q 0) ∧
        (lookupCol r "visionConfidence" = none →
          c.confidence_scores.vision = PyNum.q 0) ∧
        (lookupCol r "valuesConfidence" = none →
          c.confidence_scores.values = PyNum.q 0)) := by
  constructor
  · intro idx rest r s field hf hget hbad
    rcases processRow_error_of_bad_conf idx r s field hf hget hbad with ⟨e, he⟩
    show (match processRow idx r with
      | Except.ok c => c :: preprocessGo (idx + 1) rest
      | Except.error _ => preprocessGo (idx + 1) rest) = preprocessGo (idx + 1) rest
    rw [he]
  · intro idx r c h
    cases h1 : pyFloat (rowGet r "missionConfidence" (Cell.num 0)) with
    | error e1 =>
      simp only [processRow, h1] at h
      exact absurd h (by simp)
    | ok mc =>
      cases h2 : pyFloat (rowGet r "visionConfidence" (Cell.num 0)) with
      | error e2 =>
        simp only [processRow, h1, h2] at h
        exact absurd h (by simp)
      | ok vc =>
        cases h3 : pyFloat (rowGet r "valuesConfidence" (Cell.num 0)) with
        | error e3 =>
          simp only [processRow, h1, h2, h3] at h
          exact absurd h (by simp)
        | ok wc =>
          simp only [processRow, h1, h2, h3] at h
          rw [Except.ok.injEq] at h
          subst h
          refine ⟨?_, ?_, ?_⟩
          · intro hlk
            show mc = PyNum.q 0
            have hg : rowGet r "missionConfidence" (Cell.num 0) = Cell.num 0 := by
              unfold rowGet
              rw [hlk]
              rfl
            rw [hg] at h1
            exact (Except.ok.inj h1).symm
          · intro hlk
            show vc = PyNum.q 0
            have hg : rowGet r "visionConfidence" (Cell.num 0) = Cell.num 0 := by
              unfold rowGet
              rw [hlk]
              rfl
            rw [hg] at h2
            exact (Except.ok.inj h2).symm
          · intro hlk
            show wc = PyNum.q 0
            have hg : rowGet r "valuesConfidence" (Cell.num 0) = Cell.num 0 := by
              unfold rowGet
              rw [hlk]
              rfl
            rw [hg] at h3
            exact (Except.ok.inj h3).symm

/-- A concrete row with no confidence columns at all. -/
def c3GoodRow : RawRow := [("mission", Cell.str "m")]

/-- The company `processRow` produces from `c3GoodRow` at index 1. -/
def c3GoodCompany : Company :=
  { id := "company_2", name := Cell.str "", website := Cell.str "",
    category := Cell.str "", mission := "m", vision := "", values := "",
    combined_mvv := "Mission: m",
    confidence_scores := ⟨PyNum.q 0, PyNum.q 0, PyNum.q 0⟩,
    extraction_source := Cell.str "", extracted_from := Cell.str "",
    has_complete_mvv := false }

/-- Concrete rows with an unparseable vision / values confidence. -/
def c3BadRowV : RawRow := [("mission", Cell.str "m"), ("visionConfidence", Cell.str "x2")]

def c3BadRowW : RawRow := [("mission", Cell.str "m"), ("valuesConfidence", Cell.str "9z")]

/-- C3 witness: a bad record is skipped for each of the three confidence
fields while the next row is still processed, and all three scores of a
record with no confidence columns default to `0.0`. -/
theorem C3_witness :
    (pyFloatOfString "abc" = none ∧
     preprocessGo 0 [c3BadRow, c3GoodRow] = preprocessGo 1 [c3GoodRow]) ∧
    preprocessGo 0 [c3BadRowV, c3GoodRow] = preprocessGo 1 [c3GoodRow] ∧
    preprocessGo 0 [c3BadRowW, c3GoodRow] = preprocessGo 1 [c3GoodRow] ∧
    (lookupCol c3GoodRow "missionConfidence" = none ∧
     lookupCol c3GoodRow "visionConfidence" = none ∧
     lookupCol c3GoodRow "valuesConfidence" = none ∧
     processRow 1 c3GoodRow = Except.ok c3GoodCompany ∧
     c3GoodCompany.confidence_scores.mission = PyNum.q 0 ∧
     c3GoodCompany.confidence_scores.vision = PyNum.q 0 ∧
     c3GoodCompany.confidence_scores.values = PyNum.q 0) :=
  ⟨⟨by decide,
    C3_confidence_amended.1 0 [c3GoodRow] c3BadRow "abc" "missionConfidence"
      (Or.inl rfl) (by decide) (by decide)⟩,
   C3_confidence_amended.1 0 [c3GoodRow] c3BadRowV "x2" "visionConfidence"
     (Or.inr (Or.inl rfl)) (by decide) (by decide),
   C3_confidence_amended.1 0 [c3GoodRow] c3BadRowW "9z" "valuesConfidence"
     (Or.inr (Or.inr rfl)) (by decide) (by decide),
   ⟨by decide, by decide, by decide, by decide,
    (C3_confidence_amended.2 1 c3GoodRow c3GoodCompany (by decide)).1 (by decide),
    (C3_confidence_amended.2 1 c3GoodRow c3GoodCompany (by decide)).2.1 (by decide),
    (C3_confidence_amended.2 1 c3GoodRow c3GoodCompany (by decide)).2.2 (by decide)⟩⟩

/-! ### Lemmas about the category grouping -/

/-- Look up the group stored under a key, as `by_category[category]` does. -/
def findGroup (acc : List (Cell × List Company)) (k : Cell) : Option (List Company) :=
  (acc.find? (fun p => p.1 == k)).map Prod.snd

theorem findGroup_addToGroup_same (acc : List (Cell × List Company)) (k : Cell) (c : Company) :
    findGroup (addToGroup acc k c) k = some ((findGroup acc k).getD [] ++ [c]) := by
  induction acc with
  | nil => simp [findGroup, addToGroup]
  | cons q rest ih =>
    by_cases hq : q.1 = k
    · subst hq
      simp [findGroup, addToGroup]
    · have hb : (q.1 == k) = false := beq_eq_false_iff_ne.mpr hq
      simp only [addToGroup, if_neg hq, findGroup, List.find?_cons, hb]
      exact ih

theorem findGroup_addToGroup_other (acc : List (Cell × List Company)) (k : Cell) (c : Company)
    (k2 : Cell) (hne : k2 ≠ k) : findGroup (addToGroup acc k c) k2 = findGroup acc k2 := by
  induction acc with
  | nil =>
    have hb : (k == k2) = false := beq_eq_false_iff_ne.mpr (fun h => hne h.symm)
    simp [findGroup, addToGroup, hb]
  | cons q rest ih =>
    by_cases hq : q.1 = k
    · have hb : (q.1 == k2) = false := beq_eq_false_iff_ne.mpr (fun h => hne (h ▸ hq))
      simp only [addToGroup, if_pos hq, findGroup, List.find?_cons, hb]
    · simp only [addToGroup, if_neg hq, findGroup, List.find?_cons]
      cases hb : (q.1 == k2) with
      | true => rfl
      | false => exact ih

theorem mem_keys_addToGroup (acc : List (Cell × List Company)) (k : Cell) (c : Company)
    (a : Cell) (h : a ∈ (addToGroup acc k c).map Prod.fst) :
    a ∈ acc.map Prod.fst ∨ a = k := by
  induction acc with
  | nil =>
    simp [addToGroup] at h
    exact Or.inr h
  | cons q rest ih =>
    by_cases hq : q.1 = k
    · simp only [addToGroup, if_pos hq, List.map_cons, List.mem_cons] at h ⊢
      exact Or.inl h
    · simp only [addToGroup, if_neg hq, List.map_cons, List.mem_cons] at h ⊢
      rcases h with h | h
      · exact Or.inl (Or.inl h)
      · rcases ih h with h2 | h2
        · exact Or.inl (Or.inr h2)
        · exact Or.inr h2

theorem keys_nodup_addToGroup (acc : List (Cell × List Company)) (k : Cell) (c : Company)
    (h : (acc.map Prod.fst).Nodup) : ((addToGroup acc k c).map Prod.fst).Nodup := by
  induction acc with
  | nil => simp [addToGroup]
  | cons q rest ih =>
    rw [List.map_cons, List.nodup_cons] at h
    by_cases hq : q.1 = k
    · simp only [addToGroup, if_pos hq, List.map_cons, List.nodup_cons]
      exact h
    · simp only [addToGroup, if_neg hq, List.map_cons, List.nodup_cons]
      refine ⟨?_, ih h.2⟩
      intro hmem
      rcases mem_keys_addToGroup rest k c q.1 hmem with h2 | h2
      · exact h.1 h2
      · exact hq h2

theorem keys_nodup_groupByCategory (l : List Company) :
    ((groupByCategory l).map Prod.fst).Nodup := by
  have hgen : ∀ (t : List Company) (acc : List (Cell × List Company)),
      (acc.map Prod.fst).Nodup → ((t.foldl groupStep acc).map Prod.fst).Nodup := by
    intro t
    induction t with
    | nil => intro acc h; exact h
    | cons c rest ih =>
      intro acc h
      rw [List.foldl_cons]
      exact ih _ (keys_nodup_addToGroup acc c.category c h)
  exact hgen l [] (by simp)

theorem findGroup_of_mem (acc : List (Cell × List Company))
    (hnd : (acc.map Prod.fst).Nodup) (p : Cell × List Company) (hp : p ∈ acc) :
    findGroup acc p.1 = some p.2 := by
  induction acc with
  | nil => exact absurd hp (List.not_mem_nil p)
  | cons q rest ih =>
    rw [List.map_cons, List.nodup_cons] at hnd
    rcases List.mem_cons.mp hp with h | h
    · subst h
      simp [findGroup]
    · have hne : (q.1 == p.1) = false := by
        refine beq_eq_false_iff_ne.mpr ?_
        intro he
        exact hnd.1 (he ▸ List.mem_map_of_mem Prod.fst h)
      simp only [findGroup, List.find?_cons, hne]
      exact ih hnd.2 h

theorem findGroup_foldl (l : List Company) (acc : List (Cell × List Company)) (k : Cell) :
    findGroup (l.foldl groupStep acc) k =
      if ((findGroup acc k).isSome || l.any (fun c => c.category == k)) then
        some ((findGroup acc k).getD [] ++ l.filter (fun c => c.category == k))
      else none := by
  induction l generalizing acc with
  | nil =>
    simp only [List.foldl_nil, List.any_nil, Bool.or_false, List.filter_nil, List.append_nil]
    cases h : findGroup acc k with
    | none => simp
    | some g => simp
  | cons c t ih =>
    rw [List.foldl_cons, ih (groupStep acc c)]
    by_cases hc : c.category = k
    · have hck : (c.category == k) = true := beq_iff_eq.mpr hc
      have h1 : findGroup (groupStep acc c) k = some ((findGroup acc k).getD [] ++ [c]) := by
        unfold groupStep
        rw [hc]
        exact findGroup_addToGroup_same acc k c
      rw [h1]
      simp [List.any_cons, hck, List.filter_cons, List.append_assoc]
    · have hck : (c.category == k) = false := beq_eq_false_iff_ne.mpr hc
      have h1 : findGroup (groupStep acc c) k = findGroup acc k := by
        unfold groupStep
        exact findGroup_addToGroup_other acc c.category c k (fun h => hc h.symm)
      rw [h1]
      simp [List.any_cons, hck, List.filter_cons]

/-- Every entry of the grouping is exactly the order-preserving filter of the
input list to that entry's key. -/
theorem groupByCategory_entry_filter (l : List Company) (p : Cell × List Company)
    (hp : p ∈ groupByCategory l) :
    p.2 = l.filter (fun c => c.category == p.1) := by
  have h4 := findGroup_of_mem (groupByCategory l) (keys_nodup_groupByCategory l) p hp
  have hf := findGroup_foldl l [] p.1
  unfold groupByCategory at h4
  rw [h4] at hf
  cases han : l.any (fun c => c.category == p.1) with
  | true =>
    rw [han] at hf
    simp only [findGroup, List.find?_nil, Option.map_none', Option.isSome_none,
      Bool.false_or, if_true, Option.getD_none, List.nil_append] at hf
    exact Option.some.inj hf
  | false =>
    rw [han] at hf
    simp only [findGroup, List.find?_nil, Option.map_none', Option.isSome_none,
      Bool.false_or, Bool.false_eq_true, if_false] at hf
    exact absurd hf (by simp)

/-- The concatenation of the grouped lists, as an abstract view of the
grouping. -/
def groupsFlatten (g : List (Cell × List Company)) : List Company :=
  (g.map Prod.snd).flatten

/-- The sum of the group sizes of a grouping. -/
def sumOfGroupLengths (g : List (Cell × List Company)) : Nat :=
  (g.map (fun p => p.2.length)).sum

theorem groupsFlatten_addToGroup (acc : List (Cell × List Company)) (k : Cell) (c : Company) :
    List.Perm (groupsFlatten (addToGroup acc k c)) (groupsFlatten acc ++ [c]) := by
  induction acc with
  | nil => simp [groupsFlatten, addToGroup]
  | cons q rest ih =>
    by_cases hq : q.1 = k
    · simp only [addToGroup, if_pos hq, groupsFlatten, List.map_cons, List.flatten_cons]
      rw [List.append_assoc, List.append_assoc]
      exact List.Perm.append_left q.2 List.perm_append_comm
    · simp only [addToGroup, if_neg hq, groupsFlatten, List.map_cons, List.flatten_cons]
      rw [List.append_assoc]
      exact List.Perm.append_left q.2 ih

theorem groupsFlatten_foldl (l : List Company) (acc : List (Cell × List Company)) :
    List.Perm (groupsFlatten (l.foldl groupStep acc)) (groupsFlatten acc ++ l) := by
  induction l generalizing acc with
  | nil => simp
  | cons c t ih =>
    rw [List.foldl_cons]
    refine (ih (groupStep acc c)).trans ?_
    refine (List.Perm.append_right t (groupsFlatten_addToGroup acc c.category c)).trans ?_
    rw [List.append_assoc]
    exact List.Perm.refl _

/-- The grouping neither drops nor duplicates companies. -/
theorem groupsFlatten_groupByCategory (l : List Company) :
    List.Perm (groupsFlatten (groupByCategory l)) l := by
  have h := groupsFlatten_foldl l []
  simpa [groupsFlatten] using h

/-- The group sizes sum to the length of the grouped list. -/
theorem sumOfGroupLengths_groupByCategory (l : List Company) :
    sumOfGroupLengths (groupByCategory l) = l.length := by
  have h := (groupsFlatten_groupByCategory l).length_eq
  rw [← h]
  unfold groupsFlatten sumOfGroupLengths
  rw [List.length_flatten, List.map_map]
  rfl

/-- Inversion of a successful aggregation: the processed list was non-empty
and the bundle is the one `mkBundle` constructs. -/
theorem get_analysis_ready_data_ok (pd : List Company) (now : String) (b : Bundle)
    (h : get_analysis_ready_data (some pd) now = Except.ok b) : b = mkBundle pd now := by
  simp only [get_analysis_ready_data] at h
  by_cases hp : pd.isEmpty = true
  · rw [if_pos hp] at h
    exact absurd h (by simp)
  · rw [if_neg hp] at h
    exact (Except.ok.inj h).symm

/-! ### Claim C1 -/

/-- C1: for every successfully aggregated bundle, `complete_mvv_companies`
equals the length of `companies`, equals the sum of the `by_category` group
sizes; `companies` is exactly the complete-only filter of the processed data;
and `by_category` partitions `companies` by the `category` field (every
grouped company carries its group's key, and the groups concatenate to a
permutation of `companies`, so none is duplicated or dropped). -/
theorem C1_bundle_invariants (pd : List Company) (now : String) (b : Bundle)
    (h : get_analysis_ready_data (some pd) now = Except.ok b) :
    b.complete_mvv_companies = b.companies.length ∧
    b.complete_mvv_companies = sumOfGroupLengths b.by_category ∧
    b.companies = pd.filter (fun c => c.has_complete_mvv) ∧
    (∀ p ∈ b.by_category, ∀ c ∈ p.2, c.category = p.1) ∧
    List.Perm (groupsFlatten b.by_category) b.companies := by
  have hb := get_analysis_ready_data_ok pd now b h
  subst hb
  refine ⟨rfl, (sumOfGroupLengths_groupByCategory _).symm, rfl, ?_, groupsFlatten_groupByCategory _⟩
  intro p hp c hc
  have hfilter := groupByCategory_entry_filter _ p hp
  rw [hfilter] at hc
  exact beq_iff_eq.mp (List.mem_filter.mp hc).2

/-- Concrete companies for the C1 witness. -/
def c1A : Company :=
  { id := "company_1", name := Cell.str "A", website := Cell.str "",
    category := Cell.str "tech", mission := "m", vision := "v", values := "w",
    combined_mvv := "Mission: m | Vision: v | Values: w",
    confidence_scores := ⟨PyNum.q 1, PyNum.q 1, PyNum.q 1⟩,
    extraction_source := Cell.str "", extracted_from := Cell.str "",
    has_complete_mvv := true }

def c1B : Company :=
  { id := "company_2", name := Cell.str "B", website := Cell.str "",
    category := Cell.str "bio", mission := "m2", vision := "v2", values := "w2",
    combined_mvv := "Mission: m2 | Vision: v2 | Values: w2",
    confidence_scores := ⟨PyNum.q 1, PyNum.q 1, PyNum.q 1⟩,
    extraction_source := Cell.str "", extracted_from := Cell.str "",
    has_complete_mvv := true }

def c1C : Company :=
  { id := "company_3", name := Cell.str "C", website := Cell.str "",
    category := Cell.str "tech", mission := "m3", vision := "", values := "",
    combined_mvv := "Mission: m3",
    confidence_scores := ⟨PyNum.q 0, PyNum.q 0, PyNum.q 0⟩,
    extraction_source := Cell.str "", extracted_from := Cell.str "",
    has_complete_mvv := false }

/-- The processed list for the C1 witness. -/
def c1PD : List Company := [c1A, c1B, c1C]

/-- The bundle built from `c1PD`. -/
def c1Bundle : Bundle := mkBundle c1PD "2024-01-01T00:00:00"

/-- C1 witness at the concrete processed list `c1PD`. -/
theorem C1_witness :
    get_analysis_ready_data (some c1PD) "2024-01-01T00:00:00" = Except.ok c1Bundle ∧
    c1Bundle.complete_mvv_companies = c1Bundle.companies.length ∧
    c1Bundle.complete_mvv_companies = sumOfGroupLengths c1Bundle.by_category ∧
    c1Bundle.companies = c1PD.filter (fun c => c.has_complete_mvv) ∧
    c1A.category = Cell.str "tech" ∧
    List.Perm (groupsFlatten c1Bundle.by_category) c1Bundle.companies := by
  have hmain := C1_bundle_invariants c1PD "2024-01-01T00:00:00" c1Bundle (by decide)
  exact ⟨by decide, hmain.1, hmain.2.1, hmain.2.2.1,
    hmain.2.2.2.1 (Cell.str "tech", [c1A]) (by decide) c1A (by decide),
    hmain.2.2.2.2⟩

/-! ### Claim C7 -/

/-- Index-and-value pairing of a list starting at a given index, as
`iterrows` yields the rows (the default CSV index is `0, 1, ...`). -/
def withIndexFrom {α : Type} : Nat → List α → List (Nat × α)
  | _, [] => []
  | i, a :: l => (i, a) :: withIndexFrom (i + 1) l

theorem preprocessGo_eq_filterMap (rows : List RawRow) (idx : Nat) :
    preprocessGo idx rows =
      (withIndexFrom idx rows).filterMap (fun p => (processRow p.1 p.2).toOption) := by
  induction rows generalizing idx with
  | nil => rfl
  | cons r rest ih =>
    show (match processRow idx r with
      | Except.ok c => c :: preprocessGo (idx + 1) rest
      | Except.error _ => preprocessGo (idx + 1) rest) =
      ((idx, r) :: withIndexFrom (idx + 1) rest).filterMap (fun p => (processRow p.1 p.2).toOption)
    cases hp : processRow idx r with
    | ok c => simp [List.filterMap_cons, hp, Except.toOption, ih]
    | error e => simp [List.filterMap_cons, hp, Except.toOption, ih]

/-- C7: the row transformer emits exactly one company per successfully
processed record, in input order with failed records omitted (it is the
filter-map of the per-row body over the indexed rows); and every `by_category`
group is the order-preserving filter of the complete companies to that
category, so the groups list companies in first-seen order, stable relative
to the input order. -/
theorem C7_order_preservation :
    (∀ (idx : Nat) (rows : List RawRow),
        preprocessGo idx rows =
          (withIndexFrom idx rows).filterMap (fun p => (processRow p.1 p.2).toOption)) ∧
    (∀ (pd : List Company) (now : String) (b : Bundle),
        get_analysis_ready_data (some pd) now = Except.ok b →
        ∀ p ∈ b.by_category, p.2 = b.companies.filter (fun c => c.category == p.1)) := by
  constructor
  · intro idx rows
    exact preprocessGo_eq_filterMap rows idx
  · intro pd now b h p hp
    have hb := get_analysis_ready_data_ok pd now b h
    subst hb
    exact groupByCategory_entry_filter _ p hp

/-- Concrete companies for the C7 witness (a category seen twice with an
interleaved other category, to exhibit first-seen order). -/
def c7A : Company :=
  { id := "company_1", name := Cell.str "A", website := Cell.str "",
    category := Cell.str "tech", mission := "a", vision := "a", values := "a",
    combined_mvv := "Mission: a | Vision: a | Values: a",
    confidence_scores := ⟨PyNum.q 1, PyNum.q 1, PyNum.q 1⟩,
    extraction_source := Cell.str "", extracted_from := Cell.str "",
    has_complete_mvv := true }

def c7B : Company :=
  { id := "company_2", name := Cell.str "B", website := Cell.str "",
    category := Cell.str "bio", mission := "b", vision := "b", values := "b",
    combined_mvv := "Mission: b | Vision: b | Values: b",
    confidence_scores := ⟨PyNum.q 1, PyNum.q 1, PyNum.q 1⟩,
    extraction_source := Cell.str "", extracted_from := Cell.str "",
    has_complete_mvv := true }

def c7C : Company :=
  { id := "company_3", name := Cell.str "C", website := Cell.str "",
    category := Cell.str "tech", mission := "c", vision := "c", values := "c",
    combined_mvv := "Mission: c | Vision: c | Values: c",
    confidence_scores := ⟨PyNum.q 1, PyNum.q 1, PyNum.q 1⟩,
    extraction_source := Cell.str "", extracted_from := Cell.str "",
    has_complete_mvv := true }

/-- The processed list for the C7 witness. -/
def c7PD : List Company := [c7A, c7B, c7C]

/-- C7 witness: the tech group of the concrete bundle keeps both tech
companies in first-seen order, and equals the category filter of the
companies list. -/
theorem C7_witness :
    get_analysis_ready_data (some c7PD) "t" = Except.ok (mkBundle c7PD "t") ∧
    (Cell.str "tech", [c7A, c7C]) ∈ (mkBundle c7PD "t").by_category ∧
    [c7A, c7C] = (mkBundle c7PD "t").companies.filter (fun c => c.category == Cell.str "tech") :=
  ⟨by decide, by decide,
   C7_order_preservation.2 c7PD "t" (mkBundle c7PD "t") (by decide)
     (Cell.str "tech", [c7A, c7C]) (by decide)⟩

/-! ### Claim C8 -/

theorem pyFloat_error_shape (c : Cell) (e : PyError) (h : pyFloat c = Except.error e) :
    ∃ s, e = PyError.valueError (floatErrMsg s) := by
  cases c with
  | na => exact absurd h (by simp [pyFloat])
  | num q => exact absurd h (by simp [pyFloat])
  | str s =>
    simp only [pyFloat] at h
    cases hp : pyFloatOfString s with
    | some v =>
      rw [hp] at h
      exact absurd h (by simp)
    | none =>
      rw [hp] at h
      exact ⟨s, (Except.error.inj h).symm⟩

/-- The only errors the row body can raise are `float` conversion errors. -/
theorem processRow_error_shape (idx : Nat) (row : RawRow) (e : PyError)
    (h : processRow idx row = Except.error e) :
    ∃ s, e = PyError.valueError (floatErrMsg s) := by
  cases h1 : pyFloat (rowGet row "missionConfidence" (Cell.num 0)) with
  | error e1 =>
    simp only [processRow, h1, Except.error.injEq] at h
    exact h ▸ pyFloat_error_shape _ e1 h1
  | ok mc =>
    cases h2 : pyFloat (rowGet row "visionConfidence" (Cell.num 0)) with
    | error e2 =>
      simp only [processRow, h1, h2, Except.error.injEq] at h
      exact h ▸ pyFloat_error_shape _ e2 h2
    | ok vc =>
      cases h3 : pyFloat (rowGet row "valuesConfidence" (Cell.num 0)) with
      | error e3 =>
        simp only [processRow, h1, h2, h3, Except.error.injEq] at h
        exact h ▸ pyFloat_error_shape _ e3 h3
      | ok wc =>
        simp [processRow, h1, h2, h3] at h

/-- The guard message and any `float` conversion message are distinct strings
(their first characters differ). -/
theorem floatErrMsg_ne_notPreprocessedMsg (s : String) :
    floatErrMsg s ≠ notPreprocessedMsg := by
  intro h
  have hd : (floatErrMsg s).data.head? = notPreprocessedMsg.data.head? := by rw [h]
  have h1 : (floatErrMsg s).data.head? = some 'c' := rfl
  have h2 : notPreprocessedMsg.data.head? = some 'デ' := rfl
  rw [h1, h2] at hd
  exact absurd (Option.some.inj hd) (by decide)

/-- C8: calling the aggregator before any records were processed
(`processed_data` still `None`) raises the empty-pipeline `ValueError`, and
this error is distinguishable from the record-level failures of the row
transformer: a failing row only ever raises a `float` conversion
`ValueError`, which is never equal to the guard's error. -/
theorem C8_empty_pipeline_guard :
    (∀ now : String, get_analysis_ready_data none now =
        Except.error (PyError.valueError notPreprocessedMsg)) ∧
    (∀ (idx : Nat) (row : RawRow) (e : PyError),
        processRow idx row = Except.error e →
        e ≠ PyError.valueError notPreprocessedMsg) := by
  constructor
  · intro now
    rfl
  · intro idx row e h hcontra
    rcases processRow_error_shape idx row e h with ⟨s, hs⟩
    rw [hs] at hcontra
    exact floatErrMsg_ne_notPreprocessedMsg s (PyError.valueError.inj hcontra)

/-- A concrete row whose vision confidence cannot be parsed. -/
def c8Row : RawRow := [("visionConfidence", Cell.str "oops")]

/-- C8 witness: the guard error at a concrete timestamp, and a concrete
failing row whose raised error differs from the guard error. -/
theorem C8_witness :
    get_analysis_ready_data none "2024" = Except.error (PyError.valueError notPreprocessedMsg) ∧
    processRow 0 c8Row = Except.error (PyError.valueError (floatErrMsg "oops")) ∧
    PyError.valueError (floatErrMsg "oops") ≠ PyError.valueError notPreprocessedMsg :=
  ⟨C8_empty_pipeline_guard.1 "2024", by decide,
   C8_empty_pipeline_guard.2 0 c8Row (PyError.valueError (floatErrMsg "oops")) (by decide)⟩

/-! ### Claim C5 -/

/-- A concrete frame whose CSV lacks the `values` column. -/
def c5Frame : Frame :=
  { columns := ["companyName", "category", "status", "mission", "vision"],
    table := [[Cell.str "A", Cell.str "tech", Cell.str "completed", Cell.str "m", Cell.str "v"]] }

/-- C5 counterexample: with the `values` column missing, the run does not
complete — the statistics step of `load_data` raises `KeyError` on
`self.data[values]` and the whole pipeline fails, instead of emitting
companies with empty `values`. -/
theorem C5_counterexample :
    "values" ∉ c5Frame.columns ∧
    runPipeline c5Frame "ts" = Except.error (PyError.keyError "values") :=
  ⟨by decide, by decide⟩

/-- C5 (amended): when the `values` column is absent (the other statistics
columns being present), the run aborts with `KeyError` on `values` raised
from the load step; the row transformer itself, however, does degrade
gracefully — on rows lacking a `values` key every emitted company has
`values = ""` and `has_complete_mvv = false`. -/
theorem C5_missing_values_column :
    (∀ (f : Frame) (now : String),
        "status" ∈ f.columns → "category" ∈ f.columns → "mission" ∈ f.columns →
        "vision" ∈ f.columns → "values" ∉ f.columns →
        runPipeline f now = Except.error (PyError.keyError "values")) ∧
    (∀ (rows : List RawRow) (c : Company),
        (∀ r ∈ rows, lookupCol r "values" = none) →
        c ∈ preprocess_mvv_data rows →
        c.values = "" ∧ c.has_complete_mvv = false) := by
  constructor
  · intro f now h1 h2 h3 h4 h5
    have hs : _print_basic_stats f = Except.error (PyError.keyError "values") := by
      simp only [_print_basic_stats, frameCol, if_pos h1, if_pos h2, if_pos h3, if_pos h4,
        if_neg h5]
    simp [runPipeline, load_data, hs]
  · intro rows c hlk hmem
    suffices haux : ∀ (rows2 : List RawRow) (idx : Nat),
        (∀ r ∈ rows2, lookupCol r "values" = none) →
        ∀ c2 ∈ preprocessGo idx rows2, c2.values = "" ∧ c2.has_complete_mvv = false by
      exact haux rows 0 hlk c hmem
    intro rows2
    induction rows2 with
    | nil =>
      intro idx _ c2 hc2
      exact absurd hc2 (List.not_mem_nil c2)
    | cons r rest ih =>
      intro idx hl c2 hc2
      have hr : lookupCol r "values" = none := hl r (List.mem_cons_self r rest)
      have hrest : ∀ r2 ∈ rest, lookupCol r2 "values" = none :=
        fun r2 hm => hl r2 (List.mem_cons_of_mem r hm)
      cases hp : processRow idx r with
      | error e =>
        have hstep : preprocessGo idx (r :: rest) = preprocessGo (idx + 1) rest := by
          show (match processRow idx r with
            | Except.ok c0 => c0 :: preprocessGo (idx + 1) rest
            | Except.error _ => preprocessGo (idx + 1) rest) = preprocessGo (idx + 1) rest
          rw [hp]
        rw [hstep] at hc2
        exact ih (idx + 1) hrest c2 hc2
      | ok c0 =>
        have hstep : preprocessGo idx (r :: rest) = c0 :: preprocessGo (idx + 1) rest := by
          show (match processRow idx r with
            | Except.ok c0 => c0 :: preprocessGo (idx + 1) rest
            | Except.error _ => preprocessGo (idx + 1) rest) = c0 :: preprocessGo (idx + 1) rest
          rw [hp]
        rw [hstep] at hc2
        rcases List.mem_cons.mp hc2 with hc2 | hc2
        · subst hc2
          have hget : rowGet r "values" (Cell.str "") = Cell.str "" := by
            unfold rowGet
            rw [hr]
            rfl
          simp only [processRow, hget] at hp
          split at hp
          · exact absurd hp (by simp)
          · split at hp
            · exact absurd hp (by simp)
            · split at hp
              · exact absurd hp (by simp)
              · rw [Except.ok.injEq] at hp
                subst hp
                constructor
                · show _clean_text (Cell.str "") = ""
                  decide
                · show ((decide (_clean_text (rowGet r "mission" (Cell.str "")) ≠ "") &&
                      decide (_clean_text (rowGet r "vision" (Cell.str "")) ≠ "")) &&
                      decide (_clean_text (Cell.str "") ≠ "")) = false
                  rw [show decide (_clean_text (Cell.str "") ≠ "") = false from by decide]
                  exact Bool.and_false _
        · exact ih (idx + 1) hrest c2 hc2

/-- A concrete row without a `values` key, and the company it yields. -/
def c5Row : RawRow := [("mission", Cell.str "m"), ("vision", Cell.str "v")]

def c5Company : Company :=
  { id := "company_1", name := Cell.str "", website := Cell.str "",
    category := Cell.str "", mission := "m", vision := "v", values := "",
    combined_mvv := "Mission: m | Vision: v",
    confidence_scores := ⟨PyNum.q 0, PyNum.q 0, PyNum.q 0⟩,
    extraction_source := Cell.str "", extracted_from := Cell.str "",
    has_complete_mvv := false }

/-- C5 witness: the concrete frame without `values` aborts with `KeyError`,
and a concrete row without the `values` key yields a company with empty
`values` and a false completeness flag. -/
theorem C5_witness :
    runPipeline c5Frame "ts" = Except.error (PyError.keyError "values") ∧
    lookupCol c5Row "values" = none ∧
    c5Company ∈ preprocess_mvv_data [c5Row] ∧
    c5Company.values = "" ∧
    c5Company.has_complete_mvv = false :=
  ⟨C5_missing_values_column.1 c5Frame "ts" (by decide) (by decide) (by decide) (by decide)
     (by decide),
   by decide, by decide,
   (C5_missing_values_column.2 [c5Row] c5Company (by decide) (by decide)).1,
   (C5_missing_values_column.2 [c5Row] c5Company (by decide) (by decide)).2⟩

/-! ### Claim C9 -/

/-- Inversion of a successful full run: the bundle is the one built from the
preprocessed rows and the supplied timestamp. -/
theorem runPipeline_ok (f : Frame) (now : String) (b : Bundle)
    (h : runPipeline f now = Except.ok b) :
    b = mkBundle (preprocess_mvv_data f.rows) now := by
  unfold runPipeline at h
  cases hl : load_data f with
  | error e =>
    rw [hl] at h
    exact absurd h (by simp)
  | ok f2 =>
    rw [hl] at h
    have hf2 : f2 = f := by
      unfold load_data at hl
      cases hs : _print_basic_stats f with
      | error e =>
        rw [hs] at hl
        exact absurd hl (by simp)
      | ok st =>
        rw [hs] at hl
        exact (Except.ok.inj hl).symm
    subst hf2
    exact get_analysis_ready_data_ok _ now b h

/-- C9: the pipeline is deterministic in its data output — two successful
runs on the same input frame produce serialized JSON texts that share one
common prefix and one common suffix around the rendered `processed_at`
timestamp value, so the bytes are identical except for that value. -/
theorem C9_deterministic_output (f : Frame) (t1 t2 o1 o2 : String)
    (h1 : save_processed_data f t1 = Except.ok o1)
    (h2 : save_processed_data f t2 = Except.ok o2) :
    ∃ pre post : String,
      o1 = pre ++ jsonOfString t1 ++ post ∧ o2 = pre ++ jsonOfString t2 ++ post := by
  have inv : ∀ t o, save_processed_data f t = Except.ok o →
      o = serializeBundle (mkBundle (preprocess_mvv_data f.rows) t) := by
    intro t o h
    unfold save_processed_data at h
    cases hr : runPipeline f t with
    | error e =>
      rw [hr] at h
      exact absurd h (by simp)
    | ok b =>
      rw [hr] at h
      have hb := runPipeline_ok f t b hr
      subst hb
      exact (Except.ok.inj h).symm
  refine ⟨serializeBundleHead (mkBundle (preprocess_mvv_data f.rows) t1), "\x7d", ?_, ?_⟩
  · rw [inv t1 o1 h1]
    rfl
  · rw [inv t2 o2 h2]
    have hh : serializeBundleHead (mkBundle (preprocess_mvv_data f.rows) t1) =
        serializeBundleHead (mkBundle (preprocess_mvv_data f.rows) t2) := rfl
    rw [hh]
    rfl

/-- A concrete frame for the C9 witness. -/
def c9Frame : Frame :=
  { columns := ["companyName", "category", "status", "mission", "vision", "values"],
    table := [[Cell.str "A", Cell.str "tech", Cell.str "completed",
               Cell.str "m", Cell.str "v", Cell.str "w"]] }

/-- The serialized output of the witness run at a given timestamp. -/
def c9Out (t : String) : String :=
  serializeBundle (mkBundle (preprocess_mvv_data c9Frame.rows) t)

set_option maxRecDepth 200000 in
/-- C9 witness: two concrete runs with different timestamps. -/
theorem C9_witness :
    save_processed_data c9Frame "2024-01-01" = Except.ok (c9Out "2024-01-01") ∧
    save_processed_data c9Frame "2025-06-30" = Except.ok (c9Out "2025-06-30") ∧
    (∃ pre post : String,
      c9Out "2024-01-01" = pre ++ jsonOfString "2024-01-01" ++ post ∧
      c9Out "2025-06-30" = pre ++ jsonOfString "2025-06-30" ++ post) :=
  ⟨by decide, by decide,
   C9_deterministic_output c9Frame "2024-01-01" "2025-06-30" _ _ (by decide) (by decide)⟩
